import Mathlib

set_option maxRecDepth 8192

/-!
Shallow embedding of the `xs` compact string library (`src/xs.c`).

The 16-byte union `xs` is modelled as its raw byte image (`XS.raw`, a
16-byte block) together with the out-of-band `refcnt` pointer field
(bytes 16..23 of the C object, which are never accessed through the
union punning).  Every bit-packed field — `space_left` (low nibble of
byte 15), `is_ptr` (bit 4 of byte 15), `flag1` (bit 5 of byte 15), the
54-bit `size` (bits 0..53 of the second 8-byte word), the 6-bit
`capacity` exponent (bits 54..59), and the `ptr` word (bytes 0..7,
little endian) — is read and written as arithmetic on those bytes,
exactly following the little-endian GCC bit-field layout of the C
union.  In particular the aliasing of `space_left` with the high four
bits of `capacity`, and of `size` with the raw inline data bytes, is
preserved faithfully.

The C heap is a map from allocation identifiers ("addresses") to byte
blocks.  `malloc` returns a fresh identifier and fills the block with
the indeterminate byte 170; `realloc` always relocates, which is an
allowed behaviour of the C allocator; reads out of bounds return the
indeterminate byte and writes out of bounds are dropped (such accesses
are undefined behaviour in C, and no confirmed result below depends on
the bytes such an access produces).
-/

/-- The byte used for indeterminate (freshly malloc'd or out-of-bounds) memory. -/
def junkByte : Nat := 170

/-- A heap block: its allocated length and its byte contents. -/
structure Blk where
  len : Nat
  bs : Nat → Nat

/-- Read one byte of a block; out of bounds gives the indeterminate byte.
The stored value is reduced mod 256: memory holds bytes. -/
def Blk.rd1 (b : Blk) (i : Nat) : Nat := if i < b.len then b.bs i % 256 else junkByte

/-- Write one byte of a block; out of bounds is dropped. -/
def Blk.wr1 (b : Blk) (i v : Nat) : Blk :=
  if i < b.len then ⟨b.len, fun j => if j = i then v % 256 else b.bs j⟩ else b

/-- Write a list of bytes starting at `off`. -/
def Blk.wrL (b : Blk) (off : Nat) (l : List Nat) : Blk :=
  match l with
  | [] => b
  | v :: t => (b.wr1 off v).wrL (off + 1) t

/-- Read `n` bytes starting at `off`. -/
def Blk.rdL (b : Blk) (off n : Nat) : List Nat :=
  (List.range n).map fun j => b.rd1 (off + j)

/-- A freshly malloc'd block: `n` indeterminate bytes. -/
def blkNew (n : Nat) : Blk := ⟨n, fun _ => junkByte⟩

/-- The 24-byte C object `xs`: the 16 punned bytes plus the `refcnt` pointer
(`none` models a null `int *refcnt`). -/
structure XS where
  raw : Blk
  refcnt : Option Nat

/-- Byte `i` of the 16-byte union image. -/
def XS.byte (x : XS) (i : Nat) : Nat := x.raw.rd1 i

/-- `x->is_ptr` (bit 4 of byte 15). -/
def xs_is_ptr (x : XS) : Bool := x.byte 15 / 16 % 2 == 1

/-- `x->space_left` (low nibble of byte 15). -/
def spaceLeft (x : XS) : Nat := x.byte 15 % 16

/-- `x->flag1` (bit 5 of byte 15). -/
def xsFlag1 (x : XS) : Bool := x.byte 15 / 32 % 2 == 1

/-- `x->capacity`: bits 54..59 of the second word; the top two bits of byte 14
hold the low two exponent bits and the low nibble of byte 15 the high four. -/
def capField (x : XS) : Nat := x.byte 14 / 64 + x.byte 15 % 16 * 4

/-- `x->size`: bits 0..53 of the second word. -/
def sizeField (x : XS) : Nat :=
  x.byte 8 + x.byte 9 * 2 ^ 8 + x.byte 10 * 2 ^ 16 + x.byte 11 * 2 ^ 24 +
    x.byte 12 * 2 ^ 32 + x.byte 13 * 2 ^ 40 + x.byte 14 % 64 * 2 ^ 48

/-- `x->ptr`: bytes 0..7 read as a little-endian 64-bit pointer. -/
def ptrField (x : XS) : Nat :=
  x.byte 0 + x.byte 1 * 2 ^ 8 + x.byte 2 * 2 ^ 16 + x.byte 3 * 2 ^ 24 +
    x.byte 4 * 2 ^ 32 + x.byte 5 * 2 ^ 40 + x.byte 6 * 2 ^ 48 + x.byte 7 * 2 ^ 56

/-- `xs_size` (src/xs.c:39-42). -/
def xs_size (x : XS) : Nat := if xs_is_ptr x then sizeField x else 15 - spaceLeft x

/-- `xs_capacity` (src/xs.c:47-50). -/
def xs_capacity (x : XS) : Nat := if xs_is_ptr x then 2 ^ capField x - 1 else 15

/-- Write byte `i` of the union image. -/
def XS.setByte (x : XS) (i v : Nat) : XS := { x with raw := x.raw.wr1 i v }

/-- Store to the 4-bit `space_left` bit-field (the value is truncated mod 16). -/
def setSpaceLeft (x : XS) (v : Nat) : XS :=
  x.setByte 15 (x.byte 15 / 16 * 16 + v % 16)

/-- `x->is_ptr = true`. -/
def setIsPtrTrue (x : XS) : XS :=
  x.setByte 15 (x.byte 15 % 16 + 16 + x.byte 15 / 32 * 32)

/-- `x->is_ptr = false`. -/
def setIsPtrFalse (x : XS) : XS :=
  x.setByte 15 (x.byte 15 % 16 + x.byte 15 / 32 * 32)

/-- `x->flag1 = true`. -/
def setFlag1True (x : XS) : XS :=
  x.setByte 15 (x.byte 15 % 32 + 32 + x.byte 15 / 64 * 64)

/-- `x->flag1 = false`. -/
def setFlag1False (x : XS) : XS :=
  x.setByte 15 (x.byte 15 % 32 + x.byte 15 / 64 * 64)

/-- Store to the 6-bit `capacity` bit-field (truncated mod 64). -/
def setCap (x : XS) (v : Nat) : XS :=
  let x := x.setByte 14 (x.byte 14 % 64 + v % 4 * 64)
  x.setByte 15 (x.byte 15 / 16 * 16 + v / 4 % 16)

/-- Store to the 54-bit `size` bit-field (truncated mod 2^54). -/
def setSize (x : XS) (v : Nat) : XS :=
  let x := x.setByte 8 (v % 256)
  let x := x.setByte 9 (v / 2 ^ 8 % 256)
  let x := x.setByte 10 (v / 2 ^ 16 % 256)
  let x := x.setByte 11 (v / 2 ^ 24 % 256)
  let x := x.setByte 12 (v / 2 ^ 32 % 256)
  let x := x.setByte 13 (v / 2 ^ 40 % 256)
  x.setByte 14 (x.byte 14 / 64 * 64 + v / 2 ^ 48 % 64)

/-- Store to the pointer word (bytes 0..7, little endian). -/
def setPtr (x : XS) (p : Nat) : XS :=
  let x := x.setByte 0 (p % 256)
  let x := x.setByte 1 (p / 2 ^ 8 % 256)
  let x := x.setByte 2 (p / 2 ^ 16 % 256)
  let x := x.setByte 3 (p / 2 ^ 24 % 256)
  let x := x.setByte 4 (p / 2 ^ 32 % 256)
  let x := x.setByte 5 (p / 2 ^ 40 % 256)
  let x := x.setByte 6 (p / 2 ^ 48 % 256)
  x.setByte 7 (p / 2 ^ 56 % 256)

/-- The process memory: heap blocks and `int` reference-count cells, each
addressed by identifiers drawn from a fresh-identifier counter. -/
structure Mem where
  bufs : Nat → Option Blk
  cells : Nat → Option Nat
  nextB : Nat
  nextC : Nat

def Mem.empty : Mem := ⟨fun _ => none, fun _ => none, 1, 1⟩

/-- `malloc(n)`: a fresh block of `n` indeterminate bytes. -/
def Mem.malloc (m : Mem) (n : Nat) : Nat × Mem :=
  (m.nextB,
    { m with
      bufs := fun j => if j = m.nextB then some (blkNew n) else m.bufs j,
      nextB := m.nextB + 1 })

/-- `free` of a heap block. -/
def Mem.freeB (m : Mem) (id : Nat) : Mem :=
  { m with bufs := fun j => if j = id then none else m.bufs j }

/-- The block at `id`; a dangling identifier gives the empty block. -/
def getBlk (m : Mem) (id : Nat) : Blk := (m.bufs id).getD ⟨0, fun _ => junkByte⟩

def Mem.setBlk (m : Mem) (id : Nat) (b : Blk) : Mem :=
  { m with bufs := fun j => if j = id then some b else m.bufs j }

/-- `realloc(id, n)`: the model always relocates (free the old block, allocate a
fresh one, copy the common prefix), which the C allocator is allowed to do. -/
def Mem.realloc (m : Mem) (id n : Nat) : Nat × Mem :=
  let old := getBlk m id
  let m := m.freeB id
  let p := m.malloc n
  (p.1, p.2.setBlk p.1 ⟨n, fun j => if j < min old.len n then old.rd1 j else junkByte⟩)

/-- `malloc(sizeof(int))` followed by storing `v`. -/
def Mem.newCell (m : Mem) (v : Nat) : Nat × Mem :=
  (m.nextC,
    { m with
      cells := fun j => if j = m.nextC then some v else m.cells j,
      nextC := m.nextC + 1 })

def Mem.setCell (m : Mem) (id v : Nat) : Mem :=
  { m with cells := fun j => if j = id then some v else m.cells j }

def Mem.freeCell (m : Mem) (id : Nat) : Mem :=
  { m with cells := fun j => if j = id then none else m.cells j }

/-- `*(x->refcnt)`; reading through null or a dangling cell gives 0. -/
def cellVal (m : Mem) (r : Option Nat) : Nat :=
  match r with
  | none => 0
  | some c => (m.cells c).getD 0

/-- Where `xs_data(x)` points: into the value itself or into a heap block. -/
inductive Loc where
  | stk : Loc
  | hp : Nat → Loc

/-- `xs_data` (src/xs.c:43-46), as a location. -/
def dataLocOf (x : XS) : Loc := if xs_is_ptr x then .hp (ptrField x) else .stk

def locLen (m : Mem) (l : Loc) : Nat :=
  match l with
  | .stk => 16
  | .hp id => (getBlk m id).len

def locRd (m : Mem) (x : XS) (l : Loc) (off n : Nat) : List Nat :=
  match l with
  | .stk => x.raw.rdL off n
  | .hp id => (getBlk m id).rdL off n

def locRd1 (m : Mem) (x : XS) (l : Loc) (i : Nat) : Nat :=
  match l with
  | .stk => x.raw.rd1 i
  | .hp id => (getBlk m id).rd1 i

def locWr (m : Mem) (x : XS) (l : Loc) (off : Nat) (bytes : List Nat) : Mem × XS :=
  match l with
  | .stk => (m, { x with raw := x.raw.wrL off bytes })
  | .hp id => (m.setBlk id ((getBlk m id).wrL off bytes), x)

def locWr1 (m : Mem) (x : XS) (l : Loc) (i v : Nat) : Mem × XS :=
  match l with
  | .stk => (m, { x with raw := x.raw.wr1 i v })
  | .hp id => (m.setBlk id ((getBlk m id).wr1 i v), x)

/-- `memmove` (read all source bytes, then write).  The byte count is clamped to
the destination block: writes past it are dropped by the model anyway, so the
clamp does not change the resulting state. -/
def cMemmove (m : Mem) (x : XS) (dst : Loc) (doff : Nat) (src : Loc) (soff n : Nat) :
    Mem × XS :=
  let k := min n (locLen m dst - doff)
  locWr m x dst doff (locRd m x src soff k)

/-- 64-bit `size_t` subtraction (the operands are `size_t` values below 2^64). -/
def sub64 (a b : Nat) : Nat := (a + 2 ^ 64 - b % 2 ^ 64) % 2 ^ 64

/-- Base-2 logarithm by structural recursion on a fuel bound (so that the
kernel can evaluate it); agrees with `Nat.log2` whenever `n < 2 ^ fuel`. -/
def log2Aux : Nat → Nat → Nat
  | _, 0 => 0
  | n, fuel + 1 => if 2 ≤ n then log2Aux (n / 2) fuel + 1 else 0

/-- `ilog2` (src/xs.c:56): `32 - __builtin_clz(n) - 1`.  The argument is
truncated to `uint32_t`; `n % 2^32 = 0` would be undefined behaviour in C. -/
def ilog2 (n : Nat) : Nat := log2Aux (n % 2 ^ 32) 32

/-- `xs_literal_empty()` (src/xs.c:52-54): all bytes zero except
`space_left = 15`, and a null `refcnt`. -/
def xs_literal_empty : XS := ⟨⟨16, fun j => if j = 15 then 15 else 0⟩, none⟩

/-- `xs_new` (src/xs.c:58-73).  `p` holds the bytes of the NUL-terminated
source sequence, terminator excluded (so `strlen(p) = p.length`, assuming no
interior NUL byte). -/
def xs_new (m : Mem) (p : List Nat) : Mem × XS :=
  let x := xs_literal_empty
  let len := p.length + 1
  if 16 < len then
    let x := setCap x (ilog2 len + 1)
    let x := setSize x (len - 1)
    let x := setIsPtrTrue x
    let am := m.malloc (2 ^ capField x)
    let x := setPtr x am.1
    let m := am.2.setBlk am.1 ((getBlk am.2 am.1).wrL 0 (p ++ [0]))
    (m, x)
  else
    let x := { x with raw := x.raw.wrL 0 (p ++ [0]) }
    let x := setSpaceLeft x (15 - (len - 1))
    (m, x)

/-- `xs_grow` (src/xs.c:87-103). -/
def xs_grow (m : Mem) (x : XS) (len : Nat) : Mem × XS :=
  if len ≤ xs_capacity x then (m, x)
  else
    let l2 := ilog2 len + 1
    if xs_is_ptr x then
      let rm := m.realloc (ptrField x) (2 ^ l2)
      let x := setPtr x rm.1
      let x := setIsPtrTrue x
      let x := setCap x l2
      (rm.2, x)
    else
      let buf := x.raw.rdL 0 16
      let am := m.malloc (2 ^ l2)
      let x := setPtr x am.1
      let m := am.2.setBlk am.1 ((getBlk am.2 am.1).wrL 0 buf)
      let x := setIsPtrTrue x
      let x := setCap x l2
      (m, x)

/-- `xs_free` (src/xs.c:111-116). -/
def xs_free (m : Mem) (x : XS) : Mem × XS :=
  if xs_is_ptr x then (m.freeB (ptrField x), xs_literal_empty) else (m, xs_literal_empty)

/-- The guard `x->flag1 && x->refcnt && *(x->refcnt) > 0` of the shared-buffer
privatization paths (src/xs.c:127, 148, 195). -/
def privGuard (m : Mem) (x : XS) : Bool :=
  xsFlag1 x && x.refcnt.isSome && decide (0 < cellVal m x.refcnt)

/-- `xs_concat` (src/xs.c:118-163). -/
def xs_concat (m : Mem) (s pre suf : XS) : Mem × XS :=
  let pres := xs_size pre
  let sufs := xs_size suf
  let size := xs_size s
  let cap := xs_capacity s
  let preLoc := dataLocOf pre
  let sufLoc := dataLocOf suf
  let dloc := dataLocOf s
  if size + pres + sufs ≤ cap then
    let t1 :=
      if privGuard m s then
        let c := s.refcnt.getD 0
        let m1 := m.setCell c (cellVal m s.refcnt - 1)
        let s1 := setFlag1False s
        let am := m1.malloc cap
        let s2 := setPtr s1 am.1
        if (am.2.cells c).getD 0 = 0 then
          (am.2.freeCell c, { s2 with refcnt := none }, Loc.hp am.1)
        else (am.2, s2, Loc.hp am.1)
      else (m, s, dloc)
    let m := t1.1
    let s := t1.2.1
    let dloc := t1.2.2
    let w1 := cMemmove m s dloc pres dloc 0 size
    let m := w1.1
    let s := w1.2
    let w2 := locWr m s dloc 0 (locRd m pre preLoc 0 (min pres (locLen m dloc)))
    let m := w2.1
    let s := w2.2
    let w3 := locWr m s dloc (pres + size)
      (locRd m suf sufLoc 0 (min (sufs + 1) (locLen m dloc - (pres + size))))
    let m := w3.1
    let s := w3.2
    let s := setSpaceLeft s (sub64 15 (size + pres + sufs))
    (m, s)
  else
    let g := xs_grow m xs_literal_empty (size + pres + sufs)
    let m1 := g.1
    let tmps := g.2
    let tloc := dataLocOf tmps
    let w1 := locWr m1 tmps tloc pres (locRd m1 s dloc 0 (min size (locLen m1 tloc - pres)))
    let m2 := w1.1
    let tmps := w1.2
    let w2 := locWr m2 tmps tloc 0 (locRd m2 pre preLoc 0 (min pres (locLen m2 tloc)))
    let m3 := w2.1
    let tmps := w2.2
    let w3 := locWr m3 tmps tloc (pres + size)
      (locRd m3 suf sufLoc 0 (min (sufs + 1) (locLen m3 tloc - (pres + size))))
    let m4 := w3.1
    let tmps := w3.2
    let m5 :=
      if privGuard m4 s then
        let c := s.refcnt.getD 0
        let m5 := m4.setCell c (cellVal m4 s.refcnt - 1)
        if (m5.cells c).getD 0 = 0 then m5.freeCell c else m5
      else (xs_free m4 s).1
    let tmps := setFlag1False tmps
    let tmps := setSize tmps (size + pres + sufs)
    (m5, tmps)

/-- The forward scan of `xs_trim` (src/xs.c:182-184): starting at index `i`
with `fuel` bytes left, advance while the byte is in the trim set. -/
def scanF (m : Mem) (x : XS) (l : Loc) (tset : List Nat) : Nat → Nat → Nat
  | i, 0 => i
  | i, fuel + 1 =>
      if tset.contains (locRd1 m x l i) then scanF m x l tset (i + 1) fuel else i

/-- The backward scan of `xs_trim` (src/xs.c:185-187): from `k` down, strip
bytes in the trim set. -/
def scanB (m : Mem) (x : XS) (l : Loc) (tset : List Nat) : Nat → Nat
  | 0 => 0
  | k + 1 => if tset.contains (locRd1 m x l k) then scanB m x l tset k else k + 1

def strlenAux (m : Mem) (x : XS) (l : Loc) : Nat → Nat → Nat
  | i, 0 => i
  | i, fuel + 1 => if locRd1 m x l i = 0 then i else strlenAux m x l (i + 1) fuel

/-- `strlen` on a location: index of the first NUL byte.  If the block holds no
NUL (undefined behaviour in C) the model stops at the block boundary. -/
def strlenLoc (m : Mem) (x : XS) (l : Loc) : Nat := strlenAux m x l 0 (locLen m l)

/-- `xs_trim` (src/xs.c:165-216).  `tset` holds the bytes of the trim set. -/
def xs_trim (m : Mem) (x : XS) (tset : List Nat) : Mem × XS :=
  if tset = [] then (m, x)
  else
    let dloc := dataLocOf x
    let slen := xs_size x
    let i := scanF m x dloc tset 0 slen
    let sb := scanB m x dloc tset slen
    let slen2 := sub64 sb i
    let t1 :=
      if privGuard m x then
        let n := strlenLoc m x (Loc.hp (ptrField x))
        let am := m.malloc n
        let x1 := setPtr x am.1
        let c := x1.refcnt.getD 0
        let m2 := am.2.setCell c (cellVal am.2 x1.refcnt - 1)
        if (m2.cells c).getD 0 = 0 then
          (m2.freeCell c, { x1 with refcnt := none }, Loc.hp am.1)
        else (m2, x1, Loc.hp am.1)
      else (m, x, dloc)
    let m := t1.1
    let x := t1.2.1
    let orig := t1.2.2
    let mv := cMemmove m x orig 0 dloc i slen2
    let m := mv.1
    let x := mv.2
    let t := locRd1 m x orig slen2
    let wt := if t ≠ 0 then locWr1 m x orig slen2 0 else (m, x)
    let m := wt.1
    let x := wt.2
    let x := if xs_is_ptr x then setSize x slen2 else setSpaceLeft x (sub64 15 slen2)
    (m, x)

/-- `xs_cpy` (src/xs.c:218-243).  Returns the memory, the destination, and the
(possibly updated) source, since the lazy reference-count creation writes
`src->refcnt` as well. -/
def xs_cpy (m : Mem) (dest src : XS) : Mem × XS × XS :=
  if xs_is_ptr src then
    let dest := setIsPtrTrue dest
    let dest := setPtr dest (ptrField src)
    let dest := setFlag1True dest
    let dest := setSize dest (xs_size src)
    match src.refcnt with
    | none =>
        let cm := m.newCell 1
        (cm.2, { dest with refcnt := some cm.1 }, { src with refcnt := some cm.1 })
    | some c =>
        (m.setCell c ((m.cells c).getD 0 + 1), { dest with refcnt := some c }, src)
  else
    let dest := { dest with raw := dest.raw.wrL 0 (src.raw.rdL 0 (xs_size src)) }
    let dest := setIsPtrFalse dest
    let dest := setSpaceLeft dest (15 - xs_size src)
    (m, dest, src)

/-- The observable content of a value: the bytes `xs_data(x)[0 .. xs_size x)`. -/
def content (m : Mem) (x : XS) : List Nat := locRd m x (dataLocOf x) 0 (xs_size x)

/-! ### A small machine for sharing states

Programs of `construct` and `copyConstruct` steps, used to reason about all
states reachable by building and sharing values (each `copyConstruct` starts
from `xs_literal_empty`, as the reference `main` does). -/

inductive Op where
  | build : List Nat → Op
  | share : Nat → Op

/-- A machine state: the memory and every live `xs` value. -/
structure St where
  m : Mem
  vs : List XS

def St.start : St := ⟨Mem.empty, []⟩

/-- One step: `build p` appends `construct(p)`; `share i` appends a
`copyConstruct` of the i-th value (which may itself gain a refcount). -/
def stepOp (s : St) (o : Op) : St :=
  match o with
  | .build p =>
      let r := xs_new s.m p
      ⟨r.1, s.vs ++ [r.2]⟩
  | .share i =>
      if h : i < s.vs.length then
        let r := xs_cpy s.m xs_literal_empty (s.vs.get ⟨i, h⟩)
        ⟨r.1, (s.vs.set i r.2.2) ++ [r.2.1]⟩
      else s

def runOps (ops : List Op) : St := ops.foldl stepOp St.start

/-- How many values reference the refcount cell `c`. -/
def refsTo (vs : List XS) (c : Nat) : Nat := vs.countP fun x => x.refcnt == some c

/-- The corrected reference-count invariant: every live cell holds exactly the
number of values referencing it minus one (the count stores the extra sharers
beyond the original); referenced cells are live; live cells are below the
fresh-cell counter. -/
def RefInv (s : St) : Prop :=
  (∀ c v, s.m.cells c = some v → v + 1 = refsTo s.vs c) ∧
  (∀ x ∈ s.vs, ∀ c, x.refcnt = some c → (s.m.cells c).isSome = true) ∧
  (∀ c, (s.m.cells c).isSome = true → c < s.m.nextC)

/-! ### Concrete scenarios

States reached by short sequences of the five operations, used below to
evaluate the library on specific inputs.  Byte values: 97 = 'a', 98 = 'b',
99 = 'c', 120 = 'x', 102/111 = 'f'/'o', 114 = 'r', 122 = 'z'. -/

/-- A 16-byte source sequence (16 times 'a'): one past the inline limit. -/
def longA : List Nat := List.replicate 16 97

/-- `a = construct("aaaaaaaaaaaaaaaa")`: heap-backed, size 16, capacity 31. -/
def cowSt1 : Mem × XS := xs_new Mem.empty longA

/-- `b = copyConstruct(a)`: `cowSt2.2.1` is `b`, `cowSt2.2.2` the updated `a`. -/
def cowSt2 : Mem × XS × XS := xs_cpy cowSt1.1 xs_literal_empty cowSt1.2

/-- `construct("x")` in the shared state. -/
def cowPre : Mem × XS := xs_new cowSt2.1 [120]

/-- `construct("")` in the shared state. -/
def cowSuf : Mem × XS := xs_new cowPre.1 []

/-- `concatenate(a, "x", "")` while `b` still shares `a`'s buffer. -/
def cowSt3 : Mem × XS := xs_concat cowSuf.1 cowSt2.2.2 cowPre.2 cowSuf.2

/-- `grow(a, 32)` while `b` still shares `a`'s buffer. -/
def cowGrow : Mem × XS := xs_grow cowSt2.1 cowSt2.2.2 32

/-- The number of values in `l` whose heap pointer is `id`. -/
def pointing (l : List XS) (id : Nat) : Nat :=
  (l.filter fun x => xs_is_ptr x && ptrField x == id).length

/-- An unshared heap value: `v = construct(16 times 'a')`. -/
def cSt1 : Mem × XS := xs_new Mem.empty longA

def cPre : Mem × XS := xs_new cSt1.1 [120]

def cSuf : Mem × XS := xs_new cPre.1 []

/-- `concatenate(v, "x", "")` on an unshared heap value, in-place branch. -/
def cSt2 : Mem × XS := xs_concat cSuf.1 cSt1.2 cPre.2 cSuf.2

/-- `construct("bar")`. -/
def fBar : Mem × XS := xs_new Mem.empty [98, 97, 114]

/-- `construct("foo")`. -/
def fFoo : Mem × XS := xs_new fBar.1 [102, 111, 111]

/-- `construct("baz")`. -/
def fBaz : Mem × XS := xs_new fFoo.1 [98, 97, 122]

/-- `concatenate(construct("bar"), construct("foo"), construct("baz"))`. -/
def fCat : Mem × XS := xs_concat fBaz.1 fBar.2 fFoo.2 fBaz.2

/-- `construct("hello")`: inline, size 5. -/
def helloSt : Mem × XS := xs_new Mem.empty [104, 101, 108, 108, 111]

/-- `grow(construct("hello"), 16)`: migrates inline to heap. -/
def helloGrow : Mem × XS := xs_grow helloSt.1 helloSt.2 16

/-- `construct("aaaaaaaaaaaabbbbb")` (12 times 'a', 5 times 'b'): heap,
size 17, capacity exponent 5. -/
def shpSt1 : Mem × XS := xs_new Mem.empty (List.replicate 12 97 ++ List.replicate 5 98)

/-- `trim(_, "b")`: strips the trailing 'b's, heap size becomes 12. -/
def shpSt2 : Mem × XS := xs_trim shpSt1.1 shpSt1.2 [98]

def shpPre : Mem × XS := xs_new shpSt2.1 [97, 98]

def shpSuf : Mem × XS := xs_new shpPre.1 [99]

/-- `concatenate(_, "ab", "c")`: total 15 fits in place. -/
def shpSt3 : Mem × XS := xs_concat shpSuf.1 shpSt2.2 shpPre.2 shpSuf.2

/-- `construct("aaa")`: inline, size 3. -/
def triSt : Mem × XS := xs_new Mem.empty [97, 97, 97]

/-- `trim(construct("aaa"), "a")`: every byte is in the trim set. -/
def triTr : Mem × XS := xs_trim triSt.1 triSt.2 [97]

/-- `construct(17 times 'b')`: heap, size 17. -/
def allB : Mem × XS := xs_new Mem.empty (List.replicate 17 98)

/-- `trim(construct(17 times 'b'), "b")`: every byte is in the trim set. -/
def allBTr : Mem × XS := xs_trim allB.1 allB.2 [98]

/-- `construct(31 times 'a')`: length 31 is itself of the form `2^5 - 1`. -/
def capSt : Mem × XS := xs_new Mem.empty (List.replicate 31 97)

/-! ### Concrete evaluations settling the falsified claims -/

/-- **C1** (COW independence) fails in the source: `xs_cpy` sets the shared
flag `flag1` only on the destination, so concatenating onto the *source* `a`
takes the in-place branch without privatizing and rewrites the shared heap
buffer.  Before the mutation `b` observes 16 times 'a'; after
`concatenate(a, "x", "")` the very same value `b` observes 'x' followed by
15 times 'a'. -/
theorem C1_cow_independence_violated :
    content cowSt2.1 cowSt2.2.1 = List.replicate 16 97 ∧
    content cowSt3.1 cowSt2.2.1 = 120 :: List.replicate 15 97 ∧
    (120 :: List.replicate 15 97 : List Nat) ≠ List.replicate 16 97 := by
  decide

/-- **C2** (concatenate correctness): the spec's concrete inline scenario does
hold — `concatenate(construct("bar"), construct("foo"), construct("baz"))`
has content "foobarbaz" and size 9 — but the universal claim fails on heap
values: the in-place branch of `xs_concat` stores the new length only into
the inline `space_left` nibble and never updates the 54-bit heap `size`
field, so after `concatenate(v, "x", "")` on a heap value of size 16 the
size reads back 16 instead of 17. -/
theorem C2_concat_heap_size_stale :
    xs_size fCat.2 = 9 ∧
    content fCat.1 fCat.2 = [102, 111, 111, 98, 97, 114, 98, 97, 122] ∧
    xs_size cSt1.2 = 16 ∧ xs_size cPre.2 = 1 ∧ xs_size cSuf.2 = 0 ∧
    xs_size cSt2.2 = 16 := by
  decide

/-- **C5** (growth safety under sharing) fails in the source: `xs_grow` calls
`realloc` on the shared buffer without consulting the reference count, so
when the allocation moves, the sibling `b` is left pointing at freed memory
(in the model: the block `b` points to is gone), invalidating its view. -/
theorem C5_grow_shared_buffer_dangles :
    content cowSt2.1 cowSt2.2.1 = List.replicate 16 97 ∧
    (cowGrow.1.bufs (ptrField cowSt2.2.1)).isNone = true ∧
    ptrField cowGrow.2 ≠ ptrField cowSt2.2.1 := by
  decide

/-- **C6** counterexample: `grow` on an inline value migrates the 16 raw bytes
to the heap but never stores the old length into the 54-bit `size` field,
which afterwards reads the reinterpreted raw bytes: `construct("hello")` has
size 5, yet after `grow(·, 16)` the size reads 0 (capacity is established). -/
theorem C6_grow_inline_size_lost :
    xs_size helloSt.2 = 5 ∧ xs_size helloGrow.2 = 0 ∧
    xs_capacity helloGrow.2 = 31 := by
  decide

/-- **C7** counterexample: immediately after `b = copyConstruct(a)` for a
heap-backed `a`, two values point at the buffer while the freshly created
reference count holds 1, so a non-null count does not equal the number of
values pointing at the buffer. -/
theorem C7_refcount_not_instance_count :
    cowSt2.1.cells 1 = some 1 ∧
    pointing [cowSt2.2.2, cowSt2.2.1] (ptrField cowSt2.2.1) = 2 ∧
    cowSt2.1.cells 1 ≠ some (pointing [cowSt2.2.2, cowSt2.2.1] (ptrField cowSt2.2.1)) := by
  decide

/-- **C8** (capacity-shape invariant) fails in the source: the in-place branch
of `xs_concat` writes the inline `space_left` nibble on a heap value, which
overlays the high four bits of the capacity exponent.  Reaching total length
15 on a heap value with exponent 5 rewrites the exponent to 1, so the
capacity becomes `2^1 - 1 = 1`, which is neither 15 nor `2^k - 1` with
`k ≥ 4` (any such value is at least `2^4 - 1`). -/
theorem C8_capacity_shape_violated :
    xs_size shpSt2.2 = 12 ∧ xs_capacity shpSt2.2 = 31 ∧
    xs_capacity shpSt3.2 = 1 ∧ (1 : Nat) < 2 ^ 4 - 1 := by
  decide

/-- **C9** (trim idempotence) fails in the source because `xs_trim` itself is
undefined on values made entirely of trim-set bytes: both scans consume the
whole string, `slen -= i` underflows `size_t` to `2^64 - 3`, and `memmove`
is invoked with that length (undefined behaviour in C).  The size stored
afterwards for `trim(construct("aaa"), "a")` reads 13, not 0. -/
theorem C9_trim_underflows :
    xs_size triSt.2 = 3 ∧ xs_size triTr.2 = 13 := by
  decide

/-- **C10** (trim never lengthens) fails in the source on the same underflow:
for the heap value `construct(17 times 'b')`, `trim(·, "b")` stores
`(2^64 - 17) mod 2^54 = 2^54 - 17` into the size field, so the size grows
from 17 to 18014398509481967. -/
theorem C10_trim_size_grows :
    xs_size allB.2 = 17 ∧ xs_size allBTr.2 = 2 ^ 54 - 17 ∧
    xs_size allB.2 < xs_size allBTr.2 := by
  decide

/-- **C4** counterexample: for a source of length 31 the smallest
`2^k - 1 ≥ 31` is 31 itself (`k = 5`), but `xs_new` chooses capacity 63:
the exponent is computed from `length + 1` (the terminator byte is counted),
not from `length`. -/
theorem C4_capacity_not_minimal :
    xs_capacity capSt.2 = 63 ∧ 31 ≤ 2 ^ 5 - 1 ∧ (2 ^ 5 - 1 : Nat) < 63 := by
  decide

/-! ### Block and byte-field lemmas -/

theorem Blk.len_wr1 (b : Blk) (i v : Nat) : (b.wr1 i v).len = b.len := by
  unfold Blk.wr1; split <;> rfl

theorem Blk.len_wrL (b : Blk) (off : Nat) (l : List Nat) : (b.wrL off l).len = b.len := by
  induction l generalizing b off with
  | nil => rfl
  | cons v t ih => simp only [Blk.wrL]; rw [ih, Blk.len_wr1]

theorem Blk.rd1_wr1 (b : Blk) (i v j : Nat) :
    (b.wr1 i v).rd1 j = if j = i ∧ i < b.len then v % 256 else b.rd1 j := by
  unfold Blk.wr1 Blk.rd1
  by_cases hi : i < b.len
  · simp only [if_pos hi]
    by_cases hj : j = i
    · subst hj; simp [hi]
    · simp [hj]
  · simp [hi]

theorem Blk.rd1_wrL (b : Blk) (off : Nat) (l : List Nat) (j : Nat) :
    (b.wrL off l).rd1 j =
      if off ≤ j ∧ j < off + l.length ∧ j < b.len then l.getD (j - off) 0 % 256
      else b.rd1 j := by
  induction l generalizing b off with
  | nil => simp only [Blk.wrL, List.length_nil]; rw [if_neg]; omega
  | cons v t ih =>
      simp only [Blk.wrL, List.length_cons]
      rw [ih, Blk.len_wr1, Blk.rd1_wr1]
      by_cases h1 : off + 1 ≤ j ∧ j < off + 1 + t.length ∧ j < b.len
      · rw [if_pos h1, if_pos (by omega)]
        have : j - off = (j - (off + 1)) + 1 := by omega
        rw [this, List.getD_cons_succ]
      · rw [if_neg h1]
        by_cases h2 : j = off ∧ off < b.len
        · rw [if_pos h2, if_pos (by omega)]
          have : j - off = 0 := by omega
          rw [this, List.getD_cons_zero]
        · rw [if_neg h2, if_neg (by omega)]

/-- Reading back a freshly written list (entries below 256). -/
theorem Blk.rdL_wrL_take (b : Blk) (l : List Nat) (n : Nat)
    (hn : n ≤ l.length) (hL : l.length ≤ b.len) (hb : ∀ v ∈ l, v < 256) :
    (b.wrL 0 l).rdL 0 n = l.take n := by
  apply List.ext_getElem
  · simp [Blk.rdL]; omega
  · intro j hj hj2
    simp only [Blk.rdL, List.getElem_map, List.getElem_range, Nat.zero_add]
    have hjn : j < n := by simpa [Blk.rdL] using hj
    rw [Blk.rd1_wrL, if_pos (by omega)]
    have hjl : j < l.length := by omega
    simp only [Nat.sub_zero]
    rw [List.getElem_take, List.getD_eq_getElem l 0 hjl, Nat.mod_eq_of_lt (hb _ (l.getElem_mem hjl))]

theorem XS.raw_len_setByte (x : XS) (i v : Nat) : (x.setByte i v).raw.len = x.raw.len :=
  Blk.len_wr1 ..

theorem XS.refcnt_setByte (x : XS) (i v : Nat) : (x.setByte i v).refcnt = x.refcnt := rfl

theorem XS.byte_setByte (x : XS) (i v j : Nat) :
    (x.setByte i v).byte j = if j = i ∧ i < x.raw.len then v % 256 else x.byte j :=
  Blk.rd1_wr1 ..

/-! ### `log2Aux` agrees with `Nat.log2` -/

theorem log2Aux_eq_log2 (fuel n : Nat) (h : n < 2 ^ fuel) : log2Aux n fuel = Nat.log2 n := by
  induction fuel generalizing n with
  | zero =>
      have hn : n = 0 := by omega
      subst hn
      show 0 = Nat.log2 0
      rw [Nat.log2]
      norm_num
  | succ fuel ih =>
      unfold log2Aux
      by_cases h2 : 2 ≤ n
      · rw [if_pos h2, ih (n / 2) (by omega)]
        conv_rhs => rw [Nat.log2]
        rw [if_pos h2]
      · rw [if_neg h2]
        conv_rhs => rw [Nat.log2]
        rw [if_neg h2]

theorem ilog2_eq_log2 (n : Nat) (h : n < 2 ^ 32) : ilog2 n = Nat.log2 n := by
  unfold ilog2
  rw [Nat.mod_eq_of_lt h]
  exact log2Aux_eq_log2 32 n h

/-- Every byte read is below 256. -/
theorem XS.byte_lt (x : XS) (i : Nat) : x.byte i < 256 := by
  unfold XS.byte Blk.rd1
  split
  · omega
  · unfold junkByte; omega

/-! ### Field accessors through the composite setters -/

theorem isPtr_setCap (x : XS) (hw : x.raw.len = 16) (v : Nat) :
    xs_is_ptr (setCap x v) = xs_is_ptr x := by
  simp [setCap, xs_is_ptr, XS.byte_setByte, XS.raw_len_setByte, hw] <;> omega

theorem capField_setCap (x : XS) (hw : x.raw.len = 16) (v : Nat) :
    capField (setCap x v) = v % 64 := by
  simp [setCap, capField, XS.byte_setByte, XS.raw_len_setByte, hw] <;> omega

theorem sizeField_setCap (x : XS) (hw : x.raw.len = 16) (v : Nat) :
    sizeField (setCap x v) = sizeField x := by
  simp [setCap, sizeField, XS.byte_setByte, XS.raw_len_setByte, hw] <;> omega

theorem ptrField_setCap (x : XS) (hw : x.raw.len = 16) (v : Nat) :
    ptrField (setCap x v) = ptrField x := by
  simp [setCap, ptrField, XS.byte_setByte, XS.raw_len_setByte, hw]

theorem flag1_setCap (x : XS) (hw : x.raw.len = 16) (v : Nat) :
    xsFlag1 (setCap x v) = xsFlag1 x := by
  simp [setCap, xsFlag1, XS.byte_setByte, XS.raw_len_setByte, hw] <;> omega

theorem isPtr_setSize (x : XS) (hw : x.raw.len = 16) (v : Nat) :
    xs_is_ptr (setSize x v) = xs_is_ptr x := by
  simp [setSize, xs_is_ptr, XS.byte_setByte, XS.raw_len_setByte, hw]

theorem capField_setSize (x : XS) (hw : x.raw.len = 16) (v : Nat) :
    capField (setSize x v) = capField x := by
  have h14 := x.byte_lt 14
  simp [setSize, capField, XS.byte_setByte, XS.raw_len_setByte, hw] <;> omega

theorem sizeField_setSize (x : XS) (hw : x.raw.len = 16) (v : Nat) :
    sizeField (setSize x v) = v % 2 ^ 54 := by
  simp [setSize, sizeField, XS.byte_setByte, XS.raw_len_setByte, hw] <;> omega

theorem ptrField_setSize (x : XS) (hw : x.raw.len = 16) (v : Nat) :
    ptrField (setSize x v) = ptrField x := by
  simp [setSize, ptrField, XS.byte_setByte, XS.raw_len_setByte, hw]

theorem flag1_setSize (x : XS) (hw : x.raw.len = 16) (v : Nat) :
    xsFlag1 (setSize x v) = xsFlag1 x := by
  simp [setSize, xsFlag1, XS.byte_setByte, XS.raw_len_setByte, hw]

theorem isPtr_setIsPtrTrue (x : XS) (hw : x.raw.len = 16) :
    xs_is_ptr (setIsPtrTrue x) = true := by
  simp [setIsPtrTrue, xs_is_ptr, XS.byte_setByte, XS.raw_len_setByte, hw] <;> omega

theorem capField_setIsPtrTrue (x : XS) (hw : x.raw.len = 16) :
    capField (setIsPtrTrue x) = capField x := by
  simp [setIsPtrTrue, capField, XS.byte_setByte, XS.raw_len_setByte, hw] <;> omega

theorem sizeField_setIsPtrTrue (x : XS) (hw : x.raw.len = 16) :
    sizeField (setIsPtrTrue x) = sizeField x := by
  simp [setIsPtrTrue, sizeField, XS.byte_setByte, XS.raw_len_setByte, hw]

theorem ptrField_setIsPtrTrue (x : XS) (hw : x.raw.len = 16) :
    ptrField (setIsPtrTrue x) = ptrField x := by
  simp [setIsPtrTrue, ptrField, XS.byte_setByte, XS.raw_len_setByte, hw]

theorem flag1_setIsPtrTrue (x : XS) (hw : x.raw.len = 16) :
    xsFlag1 (setIsPtrTrue x) = xsFlag1 x := by
  simp [setIsPtrTrue, xsFlag1, XS.byte_setByte, XS.raw_len_setByte, hw] <;> omega

theorem isPtr_setPtr (x : XS) (hw : x.raw.len = 16) (p : Nat) :
    xs_is_ptr (setPtr x p) = xs_is_ptr x := by
  simp [setPtr, xs_is_ptr, XS.byte_setByte, XS.raw_len_setByte, hw]

theorem capField_setPtr (x : XS) (hw : x.raw.len = 16) (p : Nat) :
    capField (setPtr x p) = capField x := by
  simp [setPtr, capField, XS.byte_setByte, XS.raw_len_setByte, hw]

theorem sizeField_setPtr (x : XS) (hw : x.raw.len = 16) (p : Nat) :
    sizeField (setPtr x p) = sizeField x := by
  simp [setPtr, sizeField, XS.byte_setByte, XS.raw_len_setByte, hw]

theorem ptrField_setPtr (x : XS) (hw : x.raw.len = 16) (p : Nat) :
    ptrField (setPtr x p) = p % 2 ^ 64 := by
  simp [setPtr, ptrField, XS.byte_setByte, XS.raw_len_setByte, hw] <;> omega

theorem flag1_setPtr (x : XS) (hw : x.raw.len = 16) (p : Nat) :
    xsFlag1 (setPtr x p) = xsFlag1 x := by
  simp [setPtr, xsFlag1, XS.byte_setByte, XS.raw_len_setByte, hw]

theorem spaceLeft_setSpaceLeft (x : XS) (hw : x.raw.len = 16) (v : Nat) :
    spaceLeft (setSpaceLeft x v) = v % 16 := by
  simp [setSpaceLeft, spaceLeft, XS.byte_setByte, XS.raw_len_setByte, hw] <;> omega

theorem isPtr_setSpaceLeft (x : XS) (hw : x.raw.len = 16) (v : Nat) :
    xs_is_ptr (setSpaceLeft x v) = xs_is_ptr x := by
  simp [setSpaceLeft, xs_is_ptr, XS.byte_setByte, XS.raw_len_setByte, hw] <;> omega

theorem raw_len_setCap (x : XS) (v : Nat) : (setCap x v).raw.len = x.raw.len := by
  simp [setCap, XS.raw_len_setByte]

theorem raw_len_setSize (x : XS) (v : Nat) : (setSize x v).raw.len = x.raw.len := by
  simp [setSize, XS.raw_len_setByte]

theorem raw_len_setIsPtrTrue (x : XS) : (setIsPtrTrue x).raw.len = x.raw.len := by
  simp [setIsPtrTrue, XS.raw_len_setByte]

theorem raw_len_setPtr (x : XS) (p : Nat) : (setPtr x p).raw.len = x.raw.len := by
  simp [setPtr, XS.raw_len_setByte]

theorem raw_len_setSpaceLeft (x : XS) (v : Nat) : (setSpaceLeft x v).raw.len = x.raw.len := by
  simp [setSpaceLeft, XS.raw_len_setByte]

/-! ### Memory access lemmas -/

theorem getBlk_setBlk_self (m : Mem) (id : Nat) (b : Blk) :
    getBlk (m.setBlk id b) id = b := by
  simp [getBlk, Mem.setBlk]

theorem getBlk_malloc_self (m : Mem) (n : Nat) :
    getBlk (m.malloc n).2 m.nextB = blkNew n := by
  simp [getBlk, Mem.malloc]

theorem Blk.rdL_wr1_of_ge (b : Blk) (i v off n : Nat) (h : off + n ≤ i) :
    (b.wr1 i v).rdL off n = b.rdL off n := by
  apply List.ext_getElem
  · simp [Blk.rdL]
  · intro j hj hj2
    have hjn : j < n := by simpa [Blk.rdL] using hj
    simp only [Blk.rdL, List.getElem_map, List.getElem_range]
    rw [Blk.rd1_wr1, if_neg (by omega)]

theorem Mem.malloc_fst (m : Mem) (n : Nat) : (m.malloc n).1 = m.nextB := rfl

/-! ### Claim C3: construct correctness -/

/-- **C3** Construct correctness: for every byte sequence `p` (nonzero bytes
below 256, representable length) `size(construct(p)) = length p` and the bytes
read through `data(construct(p))` are exactly `p`. -/
theorem C3_construct_correct (m : Mem) (p : List Nat)
    (hbytes : ∀ b ∈ p, 0 < b ∧ b < 256)
    (hrep : p.length + 2 < 2 ^ 32) (hmem : m.nextB < 2 ^ 64) :
    xs_size (xs_new m p).2 = p.length ∧
    content (xs_new m p).1 (xs_new m p).2 = p := by
  have hb256 : ∀ v ∈ p ++ [0], v < 256 := by
    intro v hv
    rcases List.mem_append.1 hv with h | h
    · exact (hbytes v h).2
    · simp only [List.mem_singleton] at h; omega
  by_cases hlen : 16 < p.length + 1
  · -- heap representation
    have hlog : ilog2 (p.length + 1) = Nat.log2 (p.length + 1) :=
      ilog2_eq_log2 _ (by omega)
    have hc64 : ilog2 (p.length + 1) + 1 < 64 := by
      have : Nat.log2 (p.length + 1) < 32 := (Nat.log2_lt (by omega)).2 (by omega)
      omega
    have hlt : p.length + 1 < 2 ^ (ilog2 (p.length + 1) + 1) := by
      rw [hlog]
      exact (Nat.log2_lt (by omega)).1 (by omega)
    have hwE : xs_literal_empty.raw.len = 16 := rfl
    have hw1 : (setCap xs_literal_empty (ilog2 (p.length + 1) + 1)).raw.len = 16 := by
      rw [raw_len_setCap, hwE]
    have hw2 : (setSize (setCap xs_literal_empty (ilog2 (p.length + 1) + 1))
        (p.length + 1 - 1)).raw.len = 16 := by
      rw [raw_len_setSize, hw1]
    have hw3 : (setIsPtrTrue (setSize (setCap xs_literal_empty (ilog2 (p.length + 1) + 1))
        (p.length + 1 - 1))).raw.len = 16 := by
      rw [raw_len_setIsPtrTrue, hw2]
    have hcap3 : capField (setIsPtrTrue (setSize
        (setCap xs_literal_empty (ilog2 (p.length + 1) + 1)) (p.length + 1 - 1)))
        = ilog2 (p.length + 1) + 1 := by
      rw [capField_setIsPtrTrue _ hw2, capField_setSize _ hw1,
        capField_setCap _ hwE, Nat.mod_eq_of_lt hc64]
    have hptr : xs_is_ptr (setPtr (setIsPtrTrue (setSize
        (setCap xs_literal_empty (ilog2 (p.length + 1) + 1)) (p.length + 1 - 1))) m.nextB)
        = true := by
      rw [isPtr_setPtr _ hw3, isPtr_setIsPtrTrue _ hw2]
    have hsz : sizeField (setPtr (setIsPtrTrue (setSize
        (setCap xs_literal_empty (ilog2 (p.length + 1) + 1)) (p.length + 1 - 1))) m.nextB)
        = p.length := by
      rw [sizeField_setPtr _ hw3, sizeField_setIsPtrTrue _ hw2, sizeField_setSize _ hw1]
      have h1 : p.length + 1 - 1 = p.length := by omega
      rw [h1, Nat.mod_eq_of_lt (by omega)]
    have hpf : ptrField (setPtr (setIsPtrTrue (setSize
        (setCap xs_literal_empty (ilog2 (p.length + 1) + 1)) (p.length + 1 - 1))) m.nextB)
        = m.nextB := by
      rw [ptrField_setPtr _ hw3, Nat.mod_eq_of_lt hmem]
    simp only [xs_new]
    rw [if_pos hlen]
    simp only [Mem.malloc_fst]
    refine ⟨?_, ?_⟩
    · simp only [xs_size, hptr, if_true]
      exact hsz
    · simp only [content, xs_size, dataLocOf, hptr, if_true, hpf, hsz, locRd]
      rw [getBlk_setBlk_self, getBlk_malloc_self, hcap3]
      rw [Blk.rdL_wrL_take _ (p ++ [0]) p.length (by simp)
        (by simp [blkNew]; omega) hb256]
      exact List.take_left p [0]
  · -- inline representation
    have hp15 : p.length ≤ 15 := by omega
    have hw1 : (xs_literal_empty.raw.wrL 0 (p ++ [0])).len = 16 := by
      rw [Blk.len_wrL]; rfl
    have hw1x : ({ xs_literal_empty with
        raw := xs_literal_empty.raw.wrL 0 (p ++ [0]) } : XS).raw.len = 16 := hw1
    have hb15 : ({ xs_literal_empty with
        raw := xs_literal_empty.raw.wrL 0 (p ++ [0]) } : XS).byte 15 =
        if p.length = 15 then 0 else 15 := by
      show (xs_literal_empty.raw.wrL 0 (p ++ [0])).rd1 15 = _
      rw [Blk.rd1_wrL]
      by_cases h15 : p.length = 15
      · rw [if_pos (by simp [xs_literal_empty, h15]), if_pos h15]
        simp only [Nat.sub_zero]
        rw [List.getD_append_right _ _ _ _ (by omega)]
        simp [h15]
      · rw [if_neg (by simp [xs_literal_empty]; omega), if_neg h15]
        rfl
    have hip : ∀ w : Nat, xs_is_ptr (setSpaceLeft
        { xs_literal_empty with raw := xs_literal_empty.raw.wrL 0 (p ++ [0]) } w) = false := by
      intro w
      rw [isPtr_setSpaceLeft _ hw1x]
      simp only [xs_is_ptr, hb15]
      by_cases h15 : p.length = 15 <;> simp [h15]
    have hsz : xs_size (setSpaceLeft
        { xs_literal_empty with raw := xs_literal_empty.raw.wrL 0 (p ++ [0]) }
        (15 - (p.length + 1 - 1))) = p.length := by
      simp only [xs_size, hip, Bool.false_eq_true, if_false,
        spaceLeft_setSpaceLeft _ hw1x]
      omega
    simp only [xs_new]
    rw [if_neg hlen]
    refine ⟨hsz, ?_⟩
    simp only [content, dataLocOf, hip, Bool.false_eq_true, if_false, hsz, locRd]
    show ((xs_literal_empty.raw.wrL 0 (p ++ [0])).wr1 15 _).rdL 0 p.length = p
    rw [Blk.rdL_wr1_of_ge _ 15 _ 0 p.length (by omega)]
    rw [Blk.rdL_wrL_take _ (p ++ [0]) p.length (by simp)
      (by simp [xs_literal_empty]; omega) hb256]
    exact List.take_left p [0]

/-- Witness for `C3_construct_correct` at `p = "foo"`. -/
theorem C3_construct_correct_witness :
    xs_size (xs_new Mem.empty [102, 111, 111]).2 = 3 ∧
    content (xs_new Mem.empty [102, 111, 111]).1 (xs_new Mem.empty [102, 111, 111]).2 =
      [102, 111, 111] :=
  C3_construct_correct Mem.empty [102, 111, 111] (by decide) (by decide) (by decide)

/-! ### Claim C4 (amended): representation choice of construct -/

/-- **C4** (amended) Construct representation choice: `construct(p)` is inline
for `length p ≤ 15` and heap-represented for `length p > 15`; in the heap case
the capacity is the smallest value of the form `2^k - 1` that is at least
`length p + 1` (the NUL terminator is counted), not `length p` as originally
claimed. -/
theorem C4_representation_amended (m : Mem) (p : List Nat)
    (hrep : p.length + 2 < 2 ^ 32) :
    (p.length ≤ 15 → xs_is_ptr (xs_new m p).2 = false) ∧
    (15 < p.length →
      xs_is_ptr (xs_new m p).2 = true ∧
      ∃ k, xs_capacity (xs_new m p).2 = 2 ^ k - 1 ∧
        p.length + 1 ≤ 2 ^ k - 1 ∧
        ∀ j, p.length + 1 ≤ 2 ^ j - 1 → k ≤ j) := by
  constructor
  · -- inline case
    intro hp15
    have hlen : ¬ 16 < p.length + 1 := by omega
    have hEqI : (xs_new m p).2 =
        setSpaceLeft { xs_literal_empty with raw := xs_literal_empty.raw.wrL 0 (p ++ [0]) }
          (15 - (p.length + 1 - 1)) := by
      simp only [xs_new]
      rw [if_neg hlen]
    have hw1 : (xs_literal_empty.raw.wrL 0 (p ++ [0])).len = 16 := by
      rw [Blk.len_wrL]; rfl
    have hw1x : ({ xs_literal_empty with
        raw := xs_literal_empty.raw.wrL 0 (p ++ [0]) } : XS).raw.len = 16 := hw1
    have hb15 : ({ xs_literal_empty with
        raw := xs_literal_empty.raw.wrL 0 (p ++ [0]) } : XS).byte 15 =
        if p.length = 15 then 0 else 15 := by
      show (xs_literal_empty.raw.wrL 0 (p ++ [0])).rd1 15 = _
      rw [Blk.rd1_wrL]
      by_cases h15 : p.length = 15
      · rw [if_pos (by simp [xs_literal_empty, h15]), if_pos h15]
        simp only [Nat.sub_zero]
        rw [List.getD_append_right _ _ _ _ (by omega)]
        simp [h15]
      · rw [if_neg (by simp [xs_literal_empty]; omega), if_neg h15]
        rfl
    rw [hEqI, isPtr_setSpaceLeft _ hw1x]
    simp only [xs_is_ptr, hb15]
    by_cases h15 : p.length = 15 <;> simp [h15]
  · -- heap case
    intro hp15
    have hlen : 16 < p.length + 1 := by omega
    have hlog : ilog2 (p.length + 1) = Nat.log2 (p.length + 1) :=
      ilog2_eq_log2 _ (by omega)
    have hc64 : ilog2 (p.length + 1) + 1 < 64 := by
      have : Nat.log2 (p.length + 1) < 32 := (Nat.log2_lt (by omega)).2 (by omega)
      omega
    have hlt : p.length + 1 < 2 ^ (ilog2 (p.length + 1) + 1) := by
      rw [hlog]
      exact (Nat.log2_lt (by omega)).1 (by omega)
    have hEq : (xs_new m p).2 =
        setPtr (setIsPtrTrue (setSize (setCap xs_literal_empty (ilog2 (p.length + 1) + 1))
          (p.length + 1 - 1))) m.nextB := by
      simp only [xs_new]
      rw [if_pos hlen]
      simp only [Mem.malloc_fst]
    have hwE : xs_literal_empty.raw.len = 16 := rfl
    have hw1 : (setCap xs_literal_empty (ilog2 (p.length + 1) + 1)).raw.len = 16 := by
      rw [raw_len_setCap, hwE]
    have hw2 : (setSize (setCap xs_literal_empty (ilog2 (p.length + 1) + 1))
        (p.length + 1 - 1)).raw.len = 16 := by
      rw [raw_len_setSize, hw1]
    have hw3 : (setIsPtrTrue (setSize (setCap xs_literal_empty (ilog2 (p.length + 1) + 1))
        (p.length + 1 - 1))).raw.len = 16 := by
      rw [raw_len_setIsPtrTrue, hw2]
    have hptr : xs_is_ptr (xs_new m p).2 = true := by
      rw [hEq, isPtr_setPtr _ hw3, isPtr_setIsPtrTrue _ hw2]
    have hcap : capField (xs_new m p).2 = ilog2 (p.length + 1) + 1 := by
      rw [hEq, capField_setPtr _ hw3, capField_setIsPtrTrue _ hw2, capField_setSize _ hw1,
        capField_setCap _ hwE, Nat.mod_eq_of_lt hc64]
    refine ⟨hptr, ilog2 (p.length + 1) + 1, ?_, by omega, ?_⟩
    · simp only [xs_capacity, hptr, if_true, hcap]
    · intro j hj
      have h2pos : 0 < 2 ^ j := Nat.pos_pow_of_pos j (by norm_num)
      have h2 : p.length + 1 < 2 ^ j := by omega
      have := (Nat.log2_lt (show p.length + 1 ≠ 0 by omega)).2 h2
      omega

/-- Witness for `C4_representation_amended` at `p = 16 times 'a'`. -/
theorem C4_representation_amended_witness :
    ((16 : Nat) ≤ 15 → xs_is_ptr (xs_new Mem.empty (List.replicate 16 97)).2 = false) ∧
    ((15 : Nat) < 16 →
      xs_is_ptr (xs_new Mem.empty (List.replicate 16 97)).2 = true ∧
      ∃ k, xs_capacity (xs_new Mem.empty (List.replicate 16 97)).2 = 2 ^ k - 1 ∧
        16 + 1 ≤ 2 ^ k - 1 ∧
        ∀ j, 16 + 1 ≤ 2 ^ j - 1 → k ≤ j) :=
  C4_representation_amended Mem.empty (List.replicate 16 97) (by decide)

/-! ### Claim C6 (amended): grow postcondition -/

theorem Blk.rd1_lt (b : Blk) (i : Nat) : b.rd1 i < 256 := by
  unfold Blk.rd1
  split
  · omega
  · unfold junkByte; omega

theorem Mem.realloc_fst (m : Mem) (id n : Nat) : (m.realloc id n).1 = m.nextB := rfl

theorem getBlk_realloc_self (m : Mem) (id n : Nat) :
    getBlk (m.realloc id n).2 m.nextB =
      ⟨n, fun j => if j < min (getBlk m id).len n then (getBlk m id).rd1 j else junkByte⟩ := by
  show getBlk (Mem.setBlk _ _ _) _ = _
  exact getBlk_setBlk_self ..

/-- **C6** (amended) Grow postcondition: `grow(x, len)` (for representable
`len < 2^32`) is a no-op when `capacity(x) ≥ len`; otherwise it establishes
`capacity(x) ≥ len`.  The observable content and size are preserved when `x`
was already heap-backed (with its size within capacity and allocation); an
inline value is migrated by copying its 16 raw bytes, but its 54-bit size
field is then the reinterpretation of those raw bytes, not the old length. -/
theorem C6_grow_amended (m : Mem) (x : XS) (len : Nat)
    (hw : x.raw.len = 16) (hlen : len < 2 ^ 32) (hmem : m.nextB < 2 ^ 64) :
    (len ≤ xs_capacity x → xs_grow m x len = (m, x)) ∧
    (xs_capacity x < len → len ≤ xs_capacity (xs_grow m x len).2) ∧
    (xs_is_ptr x = true →
      xs_size x ≤ xs_capacity x →
      xs_size x ≤ (getBlk m (ptrField x)).len →
      xs_size (xs_grow m x len).2 = xs_size x ∧
      content (xs_grow m x len).1 (xs_grow m x len).2 = content m x) := by
  have hnoop : len ≤ xs_capacity x → xs_grow m x len = (m, x) := by
    intro h
    simp only [xs_grow]
    rw [if_pos h]
  refine ⟨hnoop, ?_, ?_⟩
  · -- capacity is established
    intro hcap
    have hlpos : len ≠ 0 := by omega
    have hl2 : ilog2 len = Nat.log2 len := ilog2_eq_log2 _ hlen
    have hl64 : ilog2 len + 1 < 64 := by
      have : Nat.log2 len < 32 := (Nat.log2_lt hlpos).2 hlen
      omega
    have hlt : len < 2 ^ (ilog2 len + 1) := by
      rw [hl2]
      exact (Nat.log2_lt hlpos).1 (by omega)
    simp only [xs_grow]
    rw [if_neg (by omega)]
    by_cases hip : xs_is_ptr x = true
    · rw [if_pos hip]
      have hwp : (setPtr x (m.realloc (ptrField x) (2 ^ (ilog2 len + 1))).1).raw.len = 16 := by
        rw [raw_len_setPtr, hw]
      have hwq : (setIsPtrTrue (setPtr x
          (m.realloc (ptrField x) (2 ^ (ilog2 len + 1))).1)).raw.len = 16 := by
        rw [raw_len_setIsPtrTrue, hwp]
      have h1 : xs_is_ptr (setCap (setIsPtrTrue (setPtr x
          (m.realloc (ptrField x) (2 ^ (ilog2 len + 1))).1)) (ilog2 len + 1)) = true := by
        rw [isPtr_setCap _ hwq, isPtr_setIsPtrTrue _ hwp]
      have h2 : capField (setCap (setIsPtrTrue (setPtr x
          (m.realloc (ptrField x) (2 ^ (ilog2 len + 1))).1)) (ilog2 len + 1))
          = ilog2 len + 1 := by
        rw [capField_setCap _ hwq, Nat.mod_eq_of_lt hl64]
      simp only [xs_capacity, h1, if_true, h2]
      omega
    · rw [if_neg hip]
      have hwp : (setPtr x (m.malloc (2 ^ (ilog2 len + 1))).1).raw.len = 16 := by
        rw [raw_len_setPtr, hw]
      have hwq : (setIsPtrTrue (setPtr x (m.malloc (2 ^ (ilog2 len + 1))).1)).raw.len = 16 := by
        rw [raw_len_setIsPtrTrue, hwp]
      have h1 : xs_is_ptr (setCap (setIsPtrTrue (setPtr x
          (m.malloc (2 ^ (ilog2 len + 1))).1)) (ilog2 len + 1)) = true := by
        rw [isPtr_setCap _ hwq, isPtr_setIsPtrTrue _ hwp]
      have h2 : capField (setCap (setIsPtrTrue (setPtr x
          (m.malloc (2 ^ (ilog2 len + 1))).1)) (ilog2 len + 1)) = ilog2 len + 1 := by
        rw [capField_setCap _ hwq, Nat.mod_eq_of_lt hl64]
      simp only [xs_capacity, h1, if_true, h2]
      omega
  · -- heap-backed: observable content and size preserved
    intro hip hszcap hszblk
    by_cases hno : len ≤ xs_capacity x
    · rw [hnoop hno]
      exact ⟨rfl, rfl⟩
    · have hlpos : len ≠ 0 := by omega
      have hl2 : ilog2 len = Nat.log2 len := ilog2_eq_log2 _ hlen
      have hl64 : ilog2 len + 1 < 64 := by
        have : Nat.log2 len < 32 := (Nat.log2_lt hlpos).2 hlen
        omega
      have hlt : len < 2 ^ (ilog2 len + 1) := by
        rw [hl2]
        exact (Nat.log2_lt hlpos).1 (by omega)
      have hEq : xs_grow m x len =
          ((m.realloc (ptrField x) (2 ^ (ilog2 len + 1))).2,
            setCap (setIsPtrTrue (setPtr x
              (m.realloc (ptrField x) (2 ^ (ilog2 len + 1))).1)) (ilog2 len + 1)) := by
        simp only [xs_grow]
        rw [if_neg hno, if_pos hip]
      have hwp : (setPtr x (m.realloc (ptrField x) (2 ^ (ilog2 len + 1))).1).raw.len = 16 := by
        rw [raw_len_setPtr, hw]
      have hwq : (setIsPtrTrue (setPtr x
          (m.realloc (ptrField x) (2 ^ (ilog2 len + 1))).1)).raw.len = 16 := by
        rw [raw_len_setIsPtrTrue, hwp]
      have h1 : xs_is_ptr (xs_grow m x len).2 = true := by
        rw [hEq, isPtr_setCap _ hwq, isPtr_setIsPtrTrue _ hwp]
      have hsz : sizeField (xs_grow m x len).2 = sizeField x := by
        rw [hEq]
        show sizeField (setCap (setIsPtrTrue (setPtr x _)) _) = _
        rw [sizeField_setCap _ hwq, sizeField_setIsPtrTrue _ hwp, sizeField_setPtr _ hw]
      have hszx : xs_size x = sizeField x := by simp [xs_size, hip]
      have hsz2 : xs_size (xs_grow m x len).2 = xs_size x := by
        simp only [xs_size, h1, hip, if_true, hsz]
      refine ⟨hsz2, ?_⟩
      have hpf : ptrField (xs_grow m x len).2 = m.nextB := by
        rw [hEq]
        show ptrField (setCap (setIsPtrTrue (setPtr x _)) _) = _
        rw [ptrField_setCap _ hwq, ptrField_setIsPtrTrue _ hwp, ptrField_setPtr _ hw,
          Mem.realloc_fst, Nat.mod_eq_of_lt hmem]
      have hszlt : xs_size x < 2 ^ (ilog2 len + 1) := by
        have : xs_capacity x < len := by omega
        omega
      simp only [content, dataLocOf, h1, hip, if_true, hpf, hsz2, locRd]
      have hfst : (xs_grow m x len).1 = (m.realloc (ptrField x) (2 ^ (ilog2 len + 1))).2 := by
        rw [hEq]
      rw [hfst, getBlk_realloc_self]
      apply List.ext_getElem
      · simp [Blk.rdL]
      · intro j hj hj2
        have hjn : j < xs_size x := by simpa [Blk.rdL] using hj
        simp only [Blk.rdL, List.getElem_map, List.getElem_range, Nat.zero_add]
        show Blk.rd1 _ j = Blk.rd1 _ j
        unfold Blk.rd1
        simp only
        rw [if_pos (show j < 2 ^ (ilog2 len + 1) by omega)]
        rw [if_pos (show j < min (getBlk m (ptrField x)).len (2 ^ (ilog2 len + 1)) by omega)]
        split
        · omega
        · unfold junkByte
          omega

/-- Witness for `C6_grow_amended`: growing the heap value `construct(16 'a')`
to capacity 40. -/
theorem C6_grow_amended_witness :
    ((40 : Nat) ≤ xs_capacity cSt1.2 → xs_grow cSt1.1 cSt1.2 40 = (cSt1.1, cSt1.2)) ∧
    (xs_capacity cSt1.2 < 40 → (40 : Nat) ≤ xs_capacity (xs_grow cSt1.1 cSt1.2 40).2) ∧
    (xs_is_ptr cSt1.2 = true →
      xs_size cSt1.2 ≤ xs_capacity cSt1.2 →
      xs_size cSt1.2 ≤ (getBlk cSt1.1 (ptrField cSt1.2)).len →
      xs_size (xs_grow cSt1.1 cSt1.2 40).2 = xs_size cSt1.2 ∧
      content (xs_grow cSt1.1 cSt1.2 40).1 (xs_grow cSt1.1 cSt1.2 40).2 =
        content cSt1.1 cSt1.2) :=
  C6_grow_amended cSt1.1 cSt1.2 40 (by decide) (by decide) (by decide)

/-! ### Claim C7 (amended): the reference-count invariant -/

theorem xs_new_cells (m : Mem) (p : List Nat) : (xs_new m p).1.cells = m.cells := by
  simp only [xs_new]
  split <;> rfl

theorem xs_new_nextC (m : Mem) (p : List Nat) : (xs_new m p).1.nextC = m.nextC := by
  simp only [xs_new]
  split <;> rfl

theorem xs_new_refcnt (m : Mem) (p : List Nat) : (xs_new m p).2.refcnt = none := by
  simp only [xs_new]
  split <;> rfl

theorem refsTo_append (vs : List XS) (x : XS) (c : Nat) :
    refsTo (vs ++ [x]) c = refsTo vs c + (if x.refcnt = some c then 1 else 0) := by
  simp only [refsTo, List.countP_append, List.countP_cons, List.countP_nil, beq_iff_eq]
  split <;> simp

theorem refsTo_set (vs : List XS) (i : Nat) (y : XS) (h : i < vs.length) (c : Nat) :
    refsTo (vs.set i y) c + (if (vs.get ⟨i, h⟩).refcnt = some c then 1 else 0)
      = refsTo vs c + (if y.refcnt = some c then 1 else 0) := by
  induction vs generalizing i with
  | nil => simp at h
  | cons a t ih =>
      cases i with
      | zero =>
          have hg : (a :: t).get ⟨0, h⟩ = a := rfl
          rw [hg]
          simp only [List.set_cons_zero, refsTo, List.countP_cons, beq_iff_eq]
          omega
      | succ n =>
          have hn : n < t.length := by simpa using h
          have hg : (a :: t).get ⟨n + 1, h⟩ = t.get ⟨n, hn⟩ := rfl
          rw [hg]
          simp only [List.set_cons_succ, refsTo, List.countP_cons, beq_iff_eq]
          have := ih n hn
          simp only [refsTo, beq_iff_eq] at this
          omega

theorem refsTo_eq_zero (vs : List XS) (c : Nat) (h : ∀ x ∈ vs, x.refcnt ≠ some c) :
    refsTo vs c = 0 := by
  simp only [refsTo]
  rw [List.countP_eq_zero]
  intro x hx
  simpa using h x hx

theorem Mem.newCell_fst (m : Mem) (v : Nat) : (m.newCell v).1 = m.nextC := rfl

theorem Mem.newCell_cells (m : Mem) (v c : Nat) :
    (m.newCell v).2.cells c = if c = m.nextC then some v else m.cells c := rfl

theorem Mem.newCell_nextC (m : Mem) (v : Nat) : (m.newCell v).2.nextC = m.nextC + 1 := rfl

theorem Mem.setCell_cells (m : Mem) (id v c : Nat) :
    (m.setCell id v).cells c = if c = id then some v else m.cells c := rfl

theorem Mem.setCell_nextC (m : Mem) (id v : Nat) : (m.setCell id v).nextC = m.nextC := rfl

theorem refcnt_setSpaceLeft (x : XS) (v : Nat) : (setSpaceLeft x v).refcnt = x.refcnt := rfl

theorem refcnt_setIsPtrFalse (x : XS) : (setIsPtrFalse x).refcnt = x.refcnt := rfl

/-- One step of the sharing machine preserves the corrected invariant. -/
theorem refInv_step (s : St) (o : Op) (h : RefInv s) : RefInv (stepOp s o) := by
  obtain ⟨h1, h2, h3⟩ := h
  cases o with
  | build p =>
      simp only [stepOp]
      refine ⟨?_, ?_, ?_⟩
      · intro c v hc
        simp only [xs_new_cells] at hc
        rw [refsTo_append, xs_new_refcnt]
        simp only [reduceCtorEq, if_false]
        exact h1 c v hc
      · intro x hx c hc
        simp only [xs_new_cells]
        rcases List.mem_append.1 hx with hx | hx
        · exact h2 x hx c hc
        · simp only [List.mem_singleton] at hx
          subst hx
          rw [xs_new_refcnt] at hc
          exact absurd hc (by simp)
      · intro c hc
        simp only [xs_new_cells] at hc
        simp only [xs_new_nextC]
        exact h3 c hc
  | share i =>
      simp only [stepOp]
      split
      case isFalse => exact ⟨h1, h2, h3⟩
      case isTrue hi =>
        have hmem : s.vs.get ⟨i, hi⟩ ∈ s.vs := s.vs.get_mem i hi
        by_cases hip : xs_is_ptr (s.vs.get ⟨i, hi⟩) = true
        · cases hrc : (s.vs.get ⟨i, hi⟩).refcnt with
          | none =>
              -- lazy creation of the refcount cell, with value 1
              have hfresh : ∀ x ∈ s.vs, x.refcnt ≠ some s.m.nextC := by
                intro x hx hc
                have := h3 _ (h2 x hx _ hc)
                omega
              simp only [xs_cpy, hip, if_true, hrc, Mem.newCell_fst]
              refine ⟨?_, ?_, ?_⟩
              · intro c v hc
                simp only [Mem.newCell_cells] at hc
                rw [refsTo_append]
                have hset := refsTo_set s.vs i
                  { s.vs.get ⟨i, hi⟩ with refcnt := some s.m.nextC } hi c
                rw [hrc] at hset
                simp only [reduceCtorEq, if_false] at hset
                by_cases hcc : c = s.m.nextC
                · subst hcc
                  rw [if_pos rfl] at hc
                  have hv : v = 1 := by simpa using hc.symm
                  subst hv
                  have hz : refsTo s.vs s.m.nextC = 0 := refsTo_eq_zero _ _ hfresh
                  rw [hz, if_pos rfl] at hset
                  rw [show ∀ r : Blk, ({ raw := r, refcnt := some s.m.nextC } : XS).refcnt
                      = some s.m.nextC from fun _ => rfl]
                  rw [if_pos rfl]
                  omega
                · rw [if_neg hcc] at hc
                  rw [if_neg (show ¬ ((some s.m.nextC : Option Nat) = some c) by
                    simp; omega)] at hset
                  rw [show ∀ r : Blk, ({ raw := r, refcnt := some s.m.nextC } : XS).refcnt
                      = some s.m.nextC from fun _ => rfl]
                  rw [if_neg (show ¬ ((some s.m.nextC : Option Nat) = some c) by
                    simp; omega)]
                  have := h1 c v hc
                  omega
              · intro x hx c hc
                simp only [Mem.newCell_cells]
                rcases List.mem_append.1 hx with hx | hx
                · rcases List.mem_or_eq_of_mem_set hx with hx | hx
                  · by_cases hcc : c = s.m.nextC
                    · simp [hcc]
                    · rw [if_neg hcc]
                      exact h2 x hx c hc
                  · subst hx
                    have hcc : c = s.m.nextC := by
                      have hh : (some s.m.nextC : Option Nat) = some c := hc
                      simpa using hh.symm
                    simp [hcc]
                · simp only [List.mem_singleton] at hx
                  subst hx
                  have hcc : c = s.m.nextC := by
                    have hh : (some s.m.nextC : Option Nat) = some c := hc
                    simpa using hh.symm
                  simp [hcc]
              · intro c hc
                simp only [Mem.newCell_cells] at hc
                simp only [Mem.newCell_nextC]
                by_cases hcc : c = s.m.nextC
                · omega
                · rw [if_neg hcc] at hc
                  have := h3 c hc
                  omega
          | some c0 =>
              have hlive : (s.m.cells c0).isSome = true := h2 _ hmem _ hrc
              obtain ⟨v0, hv0⟩ := Option.isSome_iff_exists.1 hlive
              simp only [xs_cpy, hip, if_true, hrc]
              refine ⟨?_, ?_, ?_⟩
              · intro c v hc
                simp only [Mem.setCell_cells] at hc
                rw [refsTo_append]
                have hset := refsTo_set s.vs i (s.vs.get ⟨i, hi⟩) hi c
                by_cases hcc : c = c0
                · subst hcc
                  rw [if_pos rfl] at hc
                  have hval : v = (s.m.cells c).getD 0 + 1 := by simpa using hc.symm
                  rw [hv0] at hval
                  simp only [Option.getD_some] at hval
                  have hh1 := h1 c v0 hv0
                  rw [hrc] at hset
                  rw [show ∀ r : Blk, ({ raw := r, refcnt := some c } : XS).refcnt
                      = some c from fun _ => rfl]
                  rw [if_pos rfl]
                  omega
                · rw [if_neg hcc] at hc
                  have := h1 c v hc
                  rw [hrc] at hset
                  rw [show ∀ r : Blk, ({ raw := r, refcnt := some c0 } : XS).refcnt
                      = some c0 from fun _ => rfl]
                  rw [if_neg (show ¬ ((some c0 : Option Nat) = some c) by
                    simp; omega)]
                  omega
              · intro x hx c hc
                simp only [Mem.setCell_cells]
                rcases List.mem_append.1 hx with hx | hx
                · rcases List.mem_or_eq_of_mem_set hx with hx | hx
                  · by_cases hcc : c = c0
                    · simp [hcc]
                    · rw [if_neg hcc]
                      exact h2 x hx c hc
                  · subst hx
                    by_cases hcc : c = c0
                    · simp [hcc]
                    · rw [if_neg hcc]
                      exact h2 _ hmem c hc
                · simp only [List.mem_singleton] at hx
                  subst hx
                  have hcc : c = c0 := by
                    have hh : (some c0 : Option Nat) = some c := hc
                    simpa using hh.symm
                  simp [hcc]
              · intro c hc
                simp only [Mem.setCell_cells] at hc
                simp only [Mem.setCell_nextC]
                by_cases hcc : c = c0
                · subst hcc
                  exact h3 c (by simp [hv0])
                · rw [if_neg hcc] at hc
                  exact h3 c hc
        · -- inline copy: no reference counting involved
          have hipf : xs_is_ptr (s.vs.get ⟨i, hi⟩) = false := by
            simpa using hip
          simp only [xs_cpy, hipf, Bool.false_eq_true, if_false]
          refine ⟨?_, ?_, ?_⟩
          · intro c v hc
            rw [refsTo_append]
            simp only [refcnt_setSpaceLeft, refcnt_setIsPtrFalse]
            have hset := refsTo_set s.vs i (s.vs.get ⟨i, hi⟩) hi c
            have := h1 c v hc
            simp only [show (xs_literal_empty).refcnt = none from rfl, reduceCtorEq, if_false]
            omega
          · intro x hx c hc
            rcases List.mem_append.1 hx with hx | hx
            · rcases List.mem_or_eq_of_mem_set hx with hx | hx
              · exact h2 x hx c hc
              · subst hx
                exact h2 _ hmem c hc
            · simp only [List.mem_singleton] at hx
              subst hx
              simp only [refcnt_setSpaceLeft, refcnt_setIsPtrFalse] at hc
              have hh : (none : Option Nat) = some c := hc
              exact absurd hh (by simp)
          · exact h3

/-- **C7** (amended) Reference-count invariant: in every state reachable by
`construct` and `copyConstruct` steps, a live reference-count cell holds
exactly the number of values referencing it *minus one* — the count stores the
extra sharers beyond the original, not the number of values pointing at the
buffer as originally claimed — and every referenced cell is live and below the
fresh-cell counter. -/
theorem C7_refcount_amended (ops : List Op) : RefInv (runOps ops) := by
  have hstart : RefInv St.start := by
    refine ⟨?_, ?_, ?_⟩
    · intro c v hc
      exact absurd hc (by simp [St.start, Mem.empty])
    · intro x hx
      simp [St.start] at hx
    · intro c hc
      simp [St.start, Mem.empty] at hc
  suffices h : ∀ (l : List Op) (s : St), RefInv s → RefInv (l.foldl stepOp s) by
    exact h ops St.start hstart
  intro l
  induction l with
  | nil => intro s hs; exact hs
  | cons o t ih =>
      intro s hs
      exact ih _ (refInv_step s o hs)
